import Mathlib

/-!
Shallow embedding of the bridge contract core of the repository
(src/lib/bridge.ts and src/lib/schema.ts, plus src/consume/token.ts).

JSON values are modelled by the inductive `JSON` below; JS objects are
association lists in insertion order (parsed JSON never has duplicate
keys).  Numbers are modelled by `Int`: every numeric literal the contract
manipulates (schema_version, pr_number, array indices) is integral.
File contents are strings; the filesystem is an association list from
path to content.  Text-level JSON parsing is modelled at the value level:
JSON.parse composed with JSON.stringify is the identity on the values
considered, so the store holds `JSON` values directly.
-/

namespace Bridge

inductive JSON where
  | null
  | bool (b : Bool)
  | num (n : Int)
  | str (s : String)
  | arr (elems : List JSON)
  | obj (fields : List (String × JSON))
deriving Repr

/-- Scalar test from schema.ts `isScalar`:
`value === null || [string, number, boolean].includes(typeof value)`. -/
def isScalarJ : JSON → Bool
  | JSON.null => true
  | JSON.bool _ => true
  | JSON.num _ => true
  | JSON.str _ => true
  | _ => false

/-- Own-property lookup on a JS object (association list, first match). -/
def lookupField (fields : List (String × JSON)) (key : String) : Option JSON :=
  (fields.find? (fun kv => kv.1 = key)).map Prod.snd

/-! ### Character-level models of the JS string operations used by the code -/

/-- Model of JS `String.prototype.split` with a single-character separator:
chunks between occurrences of the separator, empty chunks kept. -/
def splitCharAux (c : Char) (acc : List Char) : List Char → List (List Char)
  | [] => [acc.reverse]
  | x :: xs => if x = c then acc.reverse :: splitCharAux c [] xs else splitCharAux c (x :: acc) xs

def jsSplit (s : String) (c : Char) : List String :=
  (splitCharAux c [] s.data).map String.mk

/-- Model of JS `String.prototype.trim` (leading and trailing whitespace). -/
def trimChars (l : List Char) : List Char :=
  ((l.dropWhile Char.isWhitespace).reverse.dropWhile Char.isWhitespace).reverse

def jsTrim (s : String) : String := String.mk (trimChars s.data)

/-- Model of JS `String.prototype.includes` for a single character. -/
def jsIncludes (s : String) (c : Char) : Bool := decide (c ∈ s.data)

/-- Model of JS `String.prototype.startsWith`. -/
def strStartsWith (s pre : String) : Bool := pre.data.isPrefixOf s.data

/-! ### Path resolver (bridge.ts `getByPath`) -/

/-- Fallback candidates: `pathSpec.split(|).map(trim).filter(Boolean)`. -/
def pathCandidates (p : String) : List String :=
  ((jsSplit p '|').map jsTrim).filter (fun s => s ≠ "")

/-- Dot segments: `pathSpec.split(.).map(trim).filter(Boolean)`. -/
def pathSegments (p : String) : List String :=
  ((jsSplit p '.').map jsTrim).filter (fun s => s ≠ "")

/-- Model of the array-index test in `getByPath`:
`Number(part)` must be an integer, non-negative (the result is a `Nat`)
and in range (checked by the caller).  Decimal forms, with an optional
leading plus sign, are modelled; exotic numeric literals (hex, exponent,
fractional) do not occur in paths and are mapped to `none`, which gives
the same failed-index outcome as the source for every negative or
non-integral form. -/
def parseIndex (s : String) : Option Nat :=
  let ds := match s.data with
    | '+' :: rest => rest
    | l => l
  if ds ≠ [] ∧ ds.all Char.isDigit then
    some (ds.foldl (fun n c => n * 10 + (c.toNat - '0'.toNat)) 0)
  else none

/-- The per-segment descent loop of `getByPath` (simple form), walking the
trimmed non-empty segments.  The null/undefined test is at the top of the
loop, so a null with segments remaining fails; property lookup models the
own keys of a parsed JSON object. -/
def walkSegs : JSON → List String → Option JSON
  | v, [] => some v
  | JSON.null, _ :: _ => none
  | JSON.arr xs, part :: rest =>
    match parseIndex part with
    | some i =>
      match xs[i]? with
      | some nxt => walkSegs nxt rest
      | none => none
    | none => none
  | JSON.obj fields, part :: rest =>
    match lookupField fields part with
    | some nxt => walkSegs nxt rest
    | none => none
  | _, _ :: _ => none

/-- Simple form of `getByPath`: empty segment list gives undefined, then
the walk, then the terminal rule (only a scalar may be returned). -/
def simpleGet (value : JSON) (p : String) : Option JSON :=
  let parts := pathSegments p
  if parts = [] then none
  else
    match walkSegs value parts with
    | some c => if isScalarJ c then some c else none
    | none => none

/-- `getByPath` from bridge.ts.  The source recurses on each fallback
candidate; a candidate produced by splitting on the bar never contains a
bar (lemma `pathCandidates_no_bar` below), so the recursive call always
takes the simple branch, which this definition inlines; the recursive
unfolding is recovered as theorem `getByPath_fallback_eq`. -/
def getByPath (value : JSON) (p : String) : Option JSON :=
  if jsIncludes p '|' then (pathCandidates p).findSome? (fun c => simpleGet value c)
  else simpleGet value p

/-! ### `pickByPaths` (bridge.ts) -/

/-- JS assignment `obj[key] = v`: an existing key keeps its position, a
new key is appended. -/
def setKey : List (String × JSON) → String → JSON → List (String × JSON)
  | [], k, v => [(k, v)]
  | (k', v') :: rest, k, v =>
    if k' = k then (k, v) :: rest else (k', v') :: setKey rest k v

/-- The cursor walk of `setByPath` inside `pickByPaths`: descend through
the leading segments, reusing an existing plain-object value at a segment
and replacing anything else (missing, scalar, null, array) with a fresh
object; assign the scalar at the final segment.  The empty-segment case
is unreachable (the caller returns early), kept as the identity. -/
def setParts : List (String × JSON) → List String → JSON → List (String × JSON)
  | target, [], _ => target
  | target, [last], scalar => setKey target last scalar
  | target, part :: rest₁ :: rest₂, scalar =>
    let inner := match lookupField target part with
      | some (JSON.obj o) => o
      | _ => []
    setKey target part (JSON.obj (setParts inner (rest₁ :: rest₂) scalar))

def setByPath (target : List (String × JSON)) (pathSpec : String) (scalar : JSON) :
    List (String × JSON) :=
  let parts := pathSegments pathSpec
  if parts = [] then target else setParts target parts scalar

/-- `pickByPaths` from bridge.ts: resolve each path with `getByPath`
(the full, fallback-aware resolver) and write defined results back at the
dotted location; undefined resolutions are silently skipped. -/
def pickByPaths (value : JSON) (paths : List String) : List (String × JSON) :=
  paths.foldl
    (fun out pathSpec =>
      match getByPath value pathSpec with
      | some v => setByPath out pathSpec v
      | none => out)
    []

/-! ### Schema and sanitizer (schema.ts) -/

def SCHEMA_VERSION : Int := 2

/-- The test of the regex `^[A-Za-z_][A-Za-z0-9_]*$`. -/
def OUTPUT_KEY_RE (s : String) : Bool :=
  match s.data with
  | [] => false
  | c :: cs => (c.isAlpha || c = '_') && cs.all (fun d => d.isAlphanum || d = '_')

inductive SanitizeMode where
  | strict
  | none
deriving DecidableEq, Repr

/-- `normalizeOutputs` from schema.ts: iterate the entries in order; in
strict mode reject the first bad key or non-scalar value; copy entries
through unchanged otherwise. -/
def normalizeOutputs (input : List (String × JSON)) (sanitize : SanitizeMode) :
    Except String (List (String × JSON)) :=
  match input with
  | [] => Except.ok []
  | (key, value) :: rest =>
    if sanitize = SanitizeMode.strict ∧ OUTPUT_KEY_RE key = false then
      Except.error ("Invalid output key: " ++ key)
    else if sanitize = SanitizeMode.strict ∧ isScalarJ value = false then
      Except.error ("Output " ++ key ++ " must be a scalar value")
    else (normalizeOutputs rest sanitize).map (fun out => (key, value) :: out)

/-- Model of the JS template-literal / `String(x)` stringification for the
values that reach error messages and the PR-number comparison.  Scalars
are exact; containers only ever feed diagnostic text, and nesting inside
an array is abbreviated (no claim depends on it). -/
def jsStringElem : JSON → String
  | JSON.null => ""
  | JSON.bool b => cond b "true" "false"
  | JSON.num n => toString n
  | JSON.str s => s
  | JSON.arr _ => ""
  | JSON.obj _ => "[object Object]"

def jsStringOfJson : JSON → String
  | JSON.null => "null"
  | JSON.bool b => cond b "true" "false"
  | JSON.num n => toString n
  | JSON.str s => s
  | JSON.arr xs => String.intercalate "," (xs.map jsStringElem)
  | JSON.obj _ => "[object Object]"

/-- `String(meta.<key>)`: a missing property is undefined and stringifies
to the literal text undefined. -/
def jsStr (m : List (String × JSON)) (key : String) : String :=
  match lookupField m key with
  | some j => jsStringOfJson j
  | none => "undefined"

/-- JS strict equality `x === s` between an arbitrary value and a known
string: true exactly when x is that same string. -/
def strFieldIs (o : Option JSON) (s : String) : Bool :=
  match o with
  | some (JSON.str t) => t = s
  | _ => false

/-- JS strict equality `x === n` between an arbitrary value and a known
number. -/
def numFieldIs (o : Option JSON) (n : Int) : Bool :=
  match o with
  | some (JSON.num k) => k = n
  | _ => false

/-- `parseJsonObject` from schema.ts, at the JSON-value level: the parsed
value must be a non-null, non-array object.  (The invalid-JSON-text error
path lives below the value-level model.) -/
def parseJsonObject (v : JSON) (label : String) :
    Except String (List (String × JSON)) :=
  match v with
  | JSON.obj fields => Except.ok fields
  | _ => Except.error (label ++ " must be a JSON object")

def REQUIRED_META_FIELDS : List String :=
  ["schema_version", "repository", "workflow_name", "workflow_run_id",
   "workflow_run_attempt", "event_name", "head_sha", "created_at"]

def STRING_META_FIELDS : List String :=
  ["repository", "workflow_name", "workflow_run_id",
   "workflow_run_attempt", "event_name", "head_sha", "created_at"]

def isNonEmptyStr : Option JSON → Bool
  | some (JSON.str s) => s ≠ ""
  | _ => false

/-- `meta.pr_number !== undefined && typeof meta.pr_number !== number`. -/
def prNumberBad (m : List (String × JSON)) : Bool :=
  match lookupField m "pr_number" with
  | none => false
  | some (JSON.num _) => false
  | some _ => true

/-- `meta.event` present but falsy, non-object or an array. -/
def eventBad (m : List (String × JSON)) : Bool :=
  match lookupField m "event" with
  | none => false
  | some (JSON.obj _) => false
  | some _ => true

/-- `validateMeta` from schema.ts: presence of the eight required keys
(first missing reported), then schema_version strict equality to the
constant, then every required string field non-empty (first offender
reported), then the optional pr_number and event shapes. -/
def validateMeta (m : List (String × JSON)) : Except String Unit :=
  match REQUIRED_META_FIELDS.find? (fun k => (lookupField m k).isNone) with
  | some k => Except.error ("Missing required meta field: " ++ k)
  | none =>
    if !(numFieldIs (lookupField m "schema_version") SCHEMA_VERSION) then
      Except.error ("Unsupported schema_version: " ++ jsStr m "schema_version")
    else
      match STRING_META_FIELDS.find? (fun k => !(isNonEmptyStr (lookupField m k))) with
      | some k => Except.error ("Invalid meta field: " ++ k)
      | none =>
        if prNumberBad m then Except.error "meta.pr_number must be a number when provided"
        else if eventBad m then Except.error "meta.event must be an object when provided"
        else Except.ok ()

/-! ### Expectation validator (bridge.ts `validateConsumerExpectations`) -/

structure ConsumerExpectations where
  repository : String
  runId : String
  runAttempt : Option String := Option.none
  sourceWorkflow : Option String := Option.none
  expectedHeadSha : Option String := Option.none
  expectedPrNumber : Option String := Option.none
  requireEvents : Option (List String) := Option.none

/-- `meta.repository !== expectations.repository` inverted: strict JS
equality between the property value and the expected string. -/
def repoCheck (m : List (String × JSON)) (e : ConsumerExpectations) : Option String :=
  if strFieldIs (lookupField m "repository") e.repository then Option.none
  else some ("Repository mismatch: expected " ++ e.repository ++ ", got " ++ jsStr m "repository")

def runCheck (m : List (String × JSON)) (e : ConsumerExpectations) : Option String :=
  if strFieldIs (lookupField m "workflow_run_id") e.runId then Option.none
  else some ("Run mismatch: expected " ++ e.runId ++ ", got " ++ jsStr m "workflow_run_id")

/-- `expectations.runAttempt && meta.workflow_run_attempt !== expectations.runAttempt`:
the check only fires when the expectation is supplied and non-empty
(JS truthiness of the optional string). -/
def runAttemptCheck (m : List (String × JSON)) (e : ConsumerExpectations) : Option String :=
  match e.runAttempt with
  | Option.none => Option.none
  | some s =>
    if s = "" then Option.none
    else if strFieldIs (lookupField m "workflow_run_attempt") s then Option.none
    else some ("Run attempt mismatch: expected " ++ s ++ ", got " ++ jsStr m "workflow_run_attempt")

def workflowCheck (m : List (String × JSON)) (e : ConsumerExpectations) : Option String :=
  match e.sourceWorkflow with
  | Option.none => Option.none
  | some s =>
    if s = "" then Option.none
    else if strFieldIs (lookupField m "workflow_name") s then Option.none
    else some ("Workflow mismatch: expected " ++ s ++ ", got " ++ jsStr m "workflow_name")

def headShaCheck (m : List (String × JSON)) (e : ConsumerExpectations) : Option String :=
  match e.expectedHeadSha with
  | Option.none => Option.none
  | some s =>
    if s = "" then Option.none
    else if strFieldIs (lookupField m "head_sha") s then Option.none
    else some ("Head SHA mismatch: expected " ++ s ++ ", got " ++ jsStr m "head_sha")

/-- `String(meta.pr_number) !== expectations.expectedPrNumber`: the
producer value is stringified, an absent value giving the literal text
undefined. -/
def prCheck (m : List (String × JSON)) (e : ConsumerExpectations) : Option String :=
  match e.expectedPrNumber with
  | Option.none => Option.none
  | some s =>
    if s = "" then Option.none
    else if jsStr m "pr_number" = s then Option.none
    else some ("PR mismatch: expected " ++ s ++ ", got " ++ jsStr m "pr_number")

/-- `requireEvents.includes(meta.event_name)`: membership by strict JS
equality, so a non-string event name is never a member. -/
def eventNameMember (m : List (String × JSON)) (l : List String) : Bool :=
  match lookupField m "event_name" with
  | some (JSON.str s) => l.contains s
  | _ => false

def requireEventsCheck (m : List (String × JSON)) (e : ConsumerExpectations) : Option String :=
  match e.requireEvents with
  | Option.none => Option.none
  | some l =>
    if l = [] then Option.none
    else if eventNameMember m l then Option.none
    else some ("Source event " ++ jsStr m "event_name" ++ " is not allowed")

/-- `validateConsumerExpectations` from bridge.ts: the if/throw chain,
first failing check wins.  `some err` models the thrown error. -/
def validateConsumerExpectations (m : List (String × JSON)) (e : ConsumerExpectations) :
    Option String :=
  match repoCheck m e with
  | some err => some err
  | Option.none =>
  match runCheck m e with
  | some err => some err
  | Option.none =>
  match runAttemptCheck m e with
  | some err => some err
  | Option.none =>
  match workflowCheck m e with
  | some err => some err
  | Option.none =>
  match headShaCheck m e with
  | some err => some err
  | Option.none =>
  match prCheck m e with
  | some err => some err
  | Option.none => requireEventsCheck m e

/-- The seven binding checks in their fixed order, as data, for stating
the fail-fast property. -/
def orderedChecks :
    List (List (String × JSON) → ConsumerExpectations → Option String) :=
  [repoCheck, runCheck, runAttemptCheck, workflowCheck, headShaCheck, prCheck,
   requireEventsCheck]

/-! ### Bundle builder (bridge.ts `writeBridgeDirectory` / `readBridgeDirectory`)

The staging filesystem is an association list from a caller-relative path
to the file content; a bundle is the written `outputs.json` and
`meta.json` values plus the copied files (destination relative path and
content).  `outputs.json` and `meta.json` are durably written before the
copy loop starts, so a copy failure still leaves the thrown error as the
outcome of the whole write; the trace records the copies performed before
the throw. -/

structure BundleDir where
  outputsJson : JSON
  metaJson : JSON
  files : List (String × String)

def fsLookup (fs : List (String × String)) (p : String) : Option String :=
  (fs.find? (fun e => e.1 = p)).map Prod.snd

/-- Node `path.isAbsolute` on POSIX. -/
def isAbsolute (p : String) : Bool := strStartsWith p "/"

/-- Node `path.normalize` for the relative paths reaching it here
(absolute entries were already rejected): resolve `.` and `..` segments,
drop empty segments, keep unresolvable leading `..` segments; the empty
result is `.`.  (Trailing-slash preservation is not modelled; no entry in
scope ends in a slash.) -/
def normStep (stack : List String) (seg : String) : List String :=
  if seg = "" ∨ seg = "." then stack
  else if seg = ".." then
    match stack with
    | [] => [".."]
    | top :: rest => if top = ".." then ".." :: stack else rest
  else seg :: stack

def pathNormalize (p : String) : String :=
  let segs := ((jsSplit p '/').foldl normStep []).reverse
  if segs = [] then "." else String.intercalate "/" segs

/-- The per-entry body of the copy loop in `writeBridgeDirectory`,
with the copies performed so far threaded through: reject an absolute
entry, then reject an entry whose normalized form starts with `..`, then
copy (a missing source propagates the underlying I/O error).  The first
component is the list of copies performed before any error. -/
def copyFilesTrace (srcFS : List (String × String)) :
    List String → List (String × String) × Option String
  | [] => ([], Option.none)
  | f :: rest =>
    if isAbsolute f then
      ([], some ("files entries must be relative paths: " ++ f))
    else
      let n := pathNormalize f
      if strStartsWith n ".." then
        ([], some ("files entry may not escape workspace: " ++ f))
      else
        match fsLookup srcFS f with
        | Option.none => ([], some ("ENOENT: no such file or directory: " ++ f))
        | some content =>
          let t := copyFilesTrace srcFS rest
          ((n, content) :: t.1, t.2)

def writeBridgeDirectory (srcFS : List (String × String))
    (outputs : List (String × JSON)) (meta : List (String × JSON))
    (files : List String) : Except String BundleDir :=
  let t := copyFilesTrace srcFS files
  match t.2 with
  | some e => Except.error e
  | Option.none => Except.ok ⟨JSON.obj outputs, JSON.obj meta, t.1⟩

/-- `readBridgeDirectory` from bridge.ts: parse and structurally validate
`meta.json`, then parse `outputs.json` and re-validate it with
`normalizeOutputs` in strict mode unconditionally (no mode parameter
exists on the read side); the files member is returned uninspected. -/
def readBridgeDirectory (b : BundleDir) :
    Except String (List (String × JSON) × List (String × JSON) × List (String × String)) :=
  match parseJsonObject b.metaJson "meta.json" with
  | Except.error e => Except.error e
  | Except.ok meta =>
    match validateMeta meta with
    | Except.error e => Except.error e
    | Except.ok _ =>
      match parseJsonObject b.outputsJson "outputs.json" with
      | Except.error e => Except.error e
      | Except.ok rawOutputs =>
        match normalizeOutputs rawOutputs SanitizeMode.strict with
        | Except.error e => Except.error e
        | Except.ok outputs => Except.ok (outputs, meta, b.files)

/-! ### Auth token resolver (src/consume/token.ts) -/

structure AuthTokenSources where
  tokenInput : String
  githubTokenInput : String
  envGithubToken : Option String := Option.none
  envGhToken : Option String := Option.none

/-- JS truthiness of a possibly-absent string: defined and non-empty. -/
def truthyStr : Option String → Option String
  | Option.none => Option.none
  | some s => if s = "" then Option.none else some s

/-- `resolveAuthToken`: the JS or-chain
`tokenInput || githubTokenInput || envGithubToken || envGhToken`, then
throw when the chain is falsy. -/
def resolveAuthToken (s : AuthTokenSources) : Except String String :=
  match [some s.tokenInput, some s.githubTokenInput,
         s.envGithubToken, s.envGhToken].findSome? truthyStr with
  | some t => Except.ok t
  | Option.none =>
    Except.error
      "Missing token for artifact download. Checked (in order): input token, input github_token, env GITHUB_TOKEN, env GH_TOKEN."

/-! ### Specification-side definitions

These restate, in the words of the specification, the algorithms the
claims describe; the theorems compare them with the source-translated
definitions above. -/

/-- One descent step of the simple-form resolution as §4.2 words it:
null/undefined fails; an array segment must be an in-range non-negative
integer index; an object segment must be an existing own key; a scalar
with segments remaining fails. -/
def specStep : Option JSON → String → Option JSON
  | Option.none, _ => Option.none
  | some JSON.null, _ => Option.none
  | some (JSON.arr xs), seg => (parseIndex seg).bind (fun i => xs[i]?)
  | some (JSON.obj fs), seg => lookupField fs seg
  | some _, _ => Option.none

/-- Simple-form resolution as the specification words it: fold the
descent step over the trimmed non-empty dot segments, then apply the
terminal rule (success only at a scalar; a container at the end yields
undefined, never the container). -/
def specSimpleResolve (v : JSON) (p : String) : Option JSON :=
  let segs := pathSegments p
  if segs.isEmpty then Option.none
  else
    match segs.foldl specStep (some v) with
    | some r => if isScalarJ r then some r else Option.none
    | Option.none => Option.none

/-- `pickByPaths` as claim C3 words it: each path resolved via the
simple-form algorithm only, written at its dotted location when defined,
silently omitted otherwise. -/
def pickBySimplePaths (value : JSON) (paths : List String) : List (String × JSON) :=
  paths.foldl
    (fun out pathSpec =>
      match specSimpleResolve value pathSpec with
      | some v => setByPath out pathSpec v
      | Option.none => out)
    []

/-- A file entry the copy loop accepts: relative, not escaping the
workspace after normalization, and present in the staging filesystem. -/
def goodCopyEntry (srcFS : List (String × String)) (g : String) : Bool :=
  !isAbsolute g && !strStartsWith (pathNormalize g) ".." && (fsLookup srcFS g).isSome

/-- The copies the loop performs for a list of accepted entries. -/
def copiesOf (srcFS : List (String × String)) (l : List String) :
    List (String × String) :=
  l.filterMap (fun g => (fsLookup srcFS g).map (fun c => (pathNormalize g, c)))

/-- A strict-valid outputs entry: identifier key and scalar value. -/
def goodOut (kv : String × JSON) : Bool :=
  OUTPUT_KEY_RE kv.1 && isScalarJ kv.2

/-- Read-after-relaxed-build: the composition of relaxed normalization
and strict normalization, as claim C9 words it. -/
def normalizeNoneThenStrict (x : List (String × JSON)) :
    Except String (List (String × JSON)) :=
  match normalizeOutputs x SanitizeMode.none with
  | Except.ok y => normalizeOutputs y SanitizeMode.strict
  | Except.error e => Except.error e

/-! ### Sanitizer lemmas -/

theorem normalizeOutputs_none_eq (x : List (String × JSON)) :
    normalizeOutputs x SanitizeMode.none = Except.ok x := by
  induction x with
  | nil => rfl
  | cons kv rest ih =>
    obtain ⟨k, v⟩ := kv
    simp [normalizeOutputs, ih, Except.map]

theorem normalizeOutputs_strict_ok (x : List (String × JSON))
    (h : ∀ kv ∈ x, goodOut kv = true) :
    normalizeOutputs x SanitizeMode.strict = Except.ok x := by
  induction x with
  | nil => rfl
  | cons kv rest ih =>
    obtain ⟨k, v⟩ := kv
    have hk := h (k, v) (List.mem_cons_self _ _)
    simp only [goodOut, Bool.and_eq_true] at hk
    have hrest : normalizeOutputs rest SanitizeMode.strict = Except.ok rest :=
      ih (fun kv hkv => h kv (List.mem_cons_of_mem _ hkv))
    simp [normalizeOutputs, hk.1, hk.2, hrest, Except.map]

theorem normalizeOutputs_strict_error (x : List (String × JSON))
    (h : ∃ kv ∈ x, goodOut kv = false) :
    ∃ e, normalizeOutputs x SanitizeMode.strict = Except.error e := by
  induction x with
  | nil => simp at h
  | cons kv rest ih =>
    obtain ⟨k, v⟩ := kv
    by_cases hk : OUTPUT_KEY_RE k = true
    · by_cases hv : isScalarJ v = true
      · have hrest : ∃ kv ∈ rest, goodOut kv = false := by
          rcases h with ⟨kv₀, hmem, hbad⟩
          rcases List.mem_cons.mp hmem with heq | hmem₀
          · subst heq; simp [goodOut, hk, hv] at hbad
          · exact ⟨kv₀, hmem₀, hbad⟩
        obtain ⟨e, he⟩ := ih hrest
        exact ⟨e, by simp [normalizeOutputs, hk, hv, he, Except.map]⟩
      · refine ⟨"Output " ++ k ++ " must be a scalar value", ?_⟩
        simp only [Bool.not_eq_true] at hv
        simp [normalizeOutputs, hk, hv]
    · refine ⟨"Invalid output key: " ++ k, ?_⟩
      simp only [Bool.not_eq_true] at hk
      simp [normalizeOutputs, hk]

/-- C9.  For every input object x, normalizing with mode none and then
with mode strict either raises an error, exactly when x has a key failing
the identifier pattern or a non-scalar value, or returns x restricted to
its strict-valid entries (which is x itself); none mode passes every
entry through unchanged. -/
theorem claim_C9 (x : List (String × JSON)) :
    normalizeOutputs x SanitizeMode.none = Except.ok x ∧
    ((∃ e, normalizeNoneThenStrict x = Except.error e) ↔
      (∃ kv ∈ x, goodOut kv = false)) ∧
    (∀ y, normalizeNoneThenStrict x = Except.ok y →
      y = x.filter goodOut) := by
  have hnone := normalizeOutputs_none_eq x
  have hcomp : normalizeNoneThenStrict x = normalizeOutputs x SanitizeMode.strict := by
    simp [normalizeNoneThenStrict, hnone]
  refine ⟨hnone, ?_, ?_⟩
  · constructor
    · rintro ⟨e, he⟩
      by_contra hno
      push_neg at hno
      have hall : ∀ kv ∈ x, goodOut kv = true := by
        intro kv hkv
        have := hno kv hkv
        simpa [Bool.not_eq_false] using this
      rw [hcomp, normalizeOutputs_strict_ok x hall] at he
      exact Except.noConfusion he
    · intro hbad
      obtain ⟨e, he⟩ := normalizeOutputs_strict_error x hbad
      exact ⟨e, by rw [hcomp, he]⟩
  · intro y hy
    rw [hcomp] at hy
    have hall : ∀ kv ∈ x, goodOut kv = true := by
      by_contra hno
      push_neg at hno
      obtain ⟨kv, hkv, hne⟩ := hno
      have : ∃ kv ∈ x, goodOut kv = false :=
        ⟨kv, hkv, by simpa [Bool.not_eq_true] using hne⟩
      obtain ⟨e, he⟩ := normalizeOutputs_strict_error x this
      rw [he] at hy
      exact Except.noConfusion hy
    rw [normalizeOutputs_strict_ok x hall] at hy
    cases hy
    exact (List.filter_eq_self.mpr hall).symm

def c9Example : List (String × JSON) :=
  [("alpha", JSON.str "a"), ("beta", JSON.num 1)]

/-- Witness for C9 at a concrete strict-valid map. -/
theorem claim_C9_witness : c9Example = c9Example.filter goodOut :=
  (claim_C9 c9Example).2.2 c9Example rfl

/-! ### C10: auth token resolution -/

/-- C10.  resolveAuthToken returns the first non-empty source in the
fixed order token input, github_token input, GITHUB_TOKEN env, GH_TOKEN
env; it throws exactly when all four are empty or absent; it never
returns an empty string. -/
theorem claim_C10 (s : AuthTokenSources) :
    (s.tokenInput ≠ "" → resolveAuthToken s = Except.ok s.tokenInput) ∧
    (s.tokenInput = "" → s.githubTokenInput ≠ "" →
      resolveAuthToken s = Except.ok s.githubTokenInput) ∧
    (∀ v, s.tokenInput = "" → s.githubTokenInput = "" →
      s.envGithubToken = some v → v ≠ "" → resolveAuthToken s = Except.ok v) ∧
    (∀ v, s.tokenInput = "" → s.githubTokenInput = "" →
      (s.envGithubToken = Option.none ∨ s.envGithubToken = some "") →
      s.envGhToken = some v → v ≠ "" → resolveAuthToken s = Except.ok v) ∧
    ((∃ e, resolveAuthToken s = Except.error e) ↔
      (s.tokenInput = "" ∧ s.githubTokenInput = "" ∧
       (s.envGithubToken = Option.none ∨ s.envGithubToken = some "") ∧
       (s.envGhToken = Option.none ∨ s.envGhToken = some ""))) ∧
    (∀ t, resolveAuthToken s = Except.ok t → t ≠ "") := by
  obtain ⟨t₁, t₂, o₁, o₂⟩ := s
  simp only [resolveAuthToken, List.findSome?_cons, List.findSome?_nil, truthyStr]
  by_cases h1 : t₁ = "" <;> by_cases h2 : t₂ = "" <;>
    rcases o₁ with _ | v₁ <;> rcases o₂ with _ | v₂ <;>
      simp_all <;>
        first
          | (by_cases hv1 : v₁ = "" <;> by_cases hv2 : v₂ = "" <;> simp_all)
          | (by_cases hv1 : v₁ = "" <;> simp_all)
          | (by_cases hv2 : v₂ = "" <;> simp_all)

/-- Witness for C10: the github_token input wins when the token input is
empty. -/
theorem claim_C10_witness :
    resolveAuthToken ⟨"", "tok", Option.none, Option.none⟩ = Except.ok "tok" :=
  (claim_C10 ⟨"", "tok", Option.none, Option.none⟩).2.1 rfl (by decide)

/-! ### C4: read-side strict re-validation -/

/-- C4.  Whatever mode the producer used to build the bundle, reading a
bundle whose outputs.json object carries a key failing the identifier
pattern or a non-scalar value raises an error: the read side re-validates
in strict mode unconditionally. -/
theorem claim_C4 (b : BundleDir) (entries : List (String × JSON))
    (hout : b.outputsJson = JSON.obj entries)
    (hbad : ∃ kv ∈ entries, goodOut kv = false) :
    ∃ e, readBridgeDirectory b = Except.error e := by
  obtain ⟨e₀, he₀⟩ := normalizeOutputs_strict_error entries hbad
  cases hm : parseJsonObject b.metaJson "meta.json" with
  | error e => exact ⟨e, by simp [readBridgeDirectory, hm]⟩
  | ok meta =>
    cases hv : validateMeta meta with
    | error e => exact ⟨e, by simp [readBridgeDirectory, hm, hv]⟩
    | ok u =>
      cases u
      refine ⟨e₀, ?_⟩
      simp only [readBridgeDirectory, hm, hv, hout]
      simp [parseJsonObject, he₀]

def c4Meta : List (String × JSON) :=
  [("schema_version", JSON.num 2), ("repository", JSON.str "owner/repo"),
   ("workflow_name", JSON.str "CI"), ("workflow_run_id", JSON.str "123"),
   ("workflow_run_attempt", JSON.str "1"), ("event_name", JSON.str "pull_request"),
   ("head_sha", JSON.str "deadbeef"), ("created_at", JSON.str "2026-01-01T00:00:00Z")]

def c4BadOutputs : List (String × JSON) :=
  [("nested", JSON.obj [("x", JSON.num 1)])]

/-- Witness for C4: a bundle written with sanitize mode none carrying a
non-scalar output value fails on read even though its metadata is valid. -/
theorem claim_C4_witness :
    ∃ e, readBridgeDirectory ⟨JSON.obj c4BadOutputs, JSON.obj c4Meta, []⟩ = Except.error e :=
  claim_C4 ⟨JSON.obj c4BadOutputs, JSON.obj c4Meta, []⟩ c4BadOutputs rfl
    ⟨("nested", JSON.obj [("x", JSON.num 1)]), List.mem_cons_self _ _, rfl⟩

/-! ### Copy-loop lemmas -/

theorem copyFilesTrace_append_good (srcFS : List (String × String))
    (pre rest : List String)
    (h : ∀ g ∈ pre, goodCopyEntry srcFS g = true) :
    copyFilesTrace srcFS (pre ++ rest) =
      (copiesOf srcFS pre ++ (copyFilesTrace srcFS rest).1,
       (copyFilesTrace srcFS rest).2) := by
  induction pre with
  | nil => simp [copiesOf]
  | cons g pre ih =>
    have hg := h g (List.mem_cons_self _ _)
    simp only [goodCopyEntry, Bool.and_eq_true, Bool.not_eq_true',
      Option.isSome_iff_exists] at hg
    obtain ⟨⟨habs, hesc⟩, c, hc⟩ := hg
    have ihrest := ih (fun g' hg' => h g' (List.mem_cons_of_mem _ hg'))
    simp [copyFilesTrace, habs, hesc, hc, ihrest, copiesOf]

theorem copyFilesTrace_all_good (srcFS : List (String × String))
    (files : List String)
    (h : ∀ g ∈ files, goodCopyEntry srcFS g = true) :
    copyFilesTrace srcFS files = (copiesOf srcFS files, Option.none) := by
  have := copyFilesTrace_append_good srcFS files [] h
  simpa [copyFilesTrace] using this

/-! ### C5: write/read round-trip -/

/-- C5.  For every strict-valid outputs map, every meta record passing
validateMeta and every accepted file list, reading the bundle just
written reproduces the outputs map and the identical meta record (so all
required fields, created_at included, are preserved verbatim: created_at
was fixed inside the meta record at write time and the read side never
recomputes it). -/
theorem claim_C5 (srcFS : List (String × String))
    (outputs meta : List (String × JSON)) (files : List String)
    (hout : ∀ kv ∈ outputs, goodOut kv = true)
    (hmeta : validateMeta meta = Except.ok ())
    (hfiles : ∀ g ∈ files, goodCopyEntry srcFS g = true) :
    writeBridgeDirectory srcFS outputs meta files =
      Except.ok ⟨JSON.obj outputs, JSON.obj meta, copiesOf srcFS files⟩ ∧
    readBridgeDirectory ⟨JSON.obj outputs, JSON.obj meta, copiesOf srcFS files⟩ =
      Except.ok (outputs, meta, copiesOf srcFS files) := by
  constructor
  · simp [writeBridgeDirectory, copyFilesTrace_all_good srcFS files hfiles]
  · simp [readBridgeDirectory, parseJsonObject, hmeta,
      normalizeOutputs_strict_ok outputs hout]

def c5Outputs : List (String × JSON) :=
  [("greeting", JSON.str "hello"), ("count", JSON.num 3)]

/-- Witness for C5 at a concrete bundle with one file. -/
theorem claim_C5_witness :
    writeBridgeDirectory [("report.txt", "data")] c5Outputs c4Meta ["report.txt"] =
      Except.ok ⟨JSON.obj c5Outputs, JSON.obj c4Meta, [("report.txt", "data")]⟩ ∧
    readBridgeDirectory ⟨JSON.obj c5Outputs, JSON.obj c4Meta, [("report.txt", "data")]⟩ =
      Except.ok (c5Outputs, c4Meta, [("report.txt", "data")]) :=
  claim_C5 [("report.txt", "data")] c5Outputs c4Meta ["report.txt"]
    (by decide) (by rfl) (by decide)

/-! ### C6: file-entry policy in writeBridgeDirectory -/

/-- C6 counterexample.  The copy loop checks and copies one entry at a
time, so with the list [ok.txt, ../secret.txt] the rejection of the
second entry is raised after ok.txt has already been copied: a rejection
is not raised before any file is copied, only before the offending
entry is copied. -/
theorem counterexample_C6 :
    writeBridgeDirectory [("ok.txt", "data")] [] [] ["ok.txt", "../secret.txt"] =
      Except.error "files entry may not escape workspace: ../secret.txt" ∧
    (copyFilesTrace [("ok.txt", "data")] ["ok.txt", "../secret.txt"]).1 =
      [("ok.txt", "data")] :=
  ⟨rfl, rfl⟩

/-- C6 (amended).  writeBridgeDirectory rejects an absolute entry with
the relative-paths error and an entry whose normalized form begins with a
parent-directory traversal token with the workspace-escape error, at the
first offending entry in list order; the rejection is raised before the
offending entry is copied (the copies performed are exactly those of the
accepted entries preceding it), though entries earlier in the list have
already been copied. -/
theorem claim_C6 (srcFS : List (String × String))
    (outputs meta : List (String × JSON)) (pre : List String) (f : String)
    (post : List String)
    (hpre : ∀ g ∈ pre, goodCopyEntry srcFS g = true) :
    (isAbsolute f = true →
      writeBridgeDirectory srcFS outputs meta (pre ++ f :: post) =
        Except.error ("files entries must be relative paths: " ++ f) ∧
      (copyFilesTrace srcFS (pre ++ f :: post)).1 = copiesOf srcFS pre) ∧
    (isAbsolute f = false → strStartsWith (pathNormalize f) ".." = true →
      writeBridgeDirectory srcFS outputs meta (pre ++ f :: post) =
        Except.error ("files entry may not escape workspace: " ++ f) ∧
      (copyFilesTrace srcFS (pre ++ f :: post)).1 = copiesOf srcFS pre) := by
  have happ := copyFilesTrace_append_good srcFS pre (f :: post) hpre
  constructor
  · intro habs
    have hhead : copyFilesTrace srcFS (f :: post) =
        ([], some ("files entries must be relative paths: " ++ f)) := by
      simp [copyFilesTrace, habs]
    rw [hhead] at happ
    constructor
    · simp [writeBridgeDirectory, happ]
    · simp [happ]
  · intro habs hesc
    have hhead : copyFilesTrace srcFS (f :: post) =
        ([], some ("files entry may not escape workspace: " ++ f)) := by
      simp [copyFilesTrace, habs, hesc]
    rw [hhead] at happ
    constructor
    · simp [writeBridgeDirectory, happ]
    · simp [happ]

/-- Witness for C6: the escape rejection at safe/../../escape.txt after
one accepted entry, and the relative-paths rejection at an absolute
entry. -/
theorem claim_C6_witness :
    (writeBridgeDirectory [("ok.txt", "data")] [] [] ["ok.txt", "safe/../../escape.txt"] =
        Except.error "files entry may not escape workspace: safe/../../escape.txt" ∧
      (copyFilesTrace [("ok.txt", "data")] ["ok.txt", "safe/../../escape.txt"]).1 =
        copiesOf [("ok.txt", "data")] ["ok.txt"]) ∧
    (writeBridgeDirectory [("ok.txt", "data")] [] [] ["/etc/passwd"] =
        Except.error "files entries must be relative paths: /etc/passwd" ∧
      (copyFilesTrace [("ok.txt", "data")] ["/etc/passwd"]).1 =
        copiesOf [("ok.txt", "data")] []) :=
  ⟨(claim_C6 [("ok.txt", "data")] [] [] ["ok.txt"] "safe/../../escape.txt" []
      (by decide)).2 rfl rfl,
   (claim_C6 [("ok.txt", "data")] [] [] [] "/etc/passwd" []
      (by decide)).1 rfl⟩

/-! ### Expectation-validator lemmas -/

/-- The if/throw chain equals the first failure over the ordered list of
the seven binding checks. -/
theorem validate_eq_findSome (m : List (String × JSON)) (e : ConsumerExpectations) :
    validateConsumerExpectations m e =
      orderedChecks.findSome? (fun c => c m e) := by
  simp only [orderedChecks, List.findSome?_cons, List.findSome?_nil,
    validateConsumerExpectations]
  cases repoCheck m e <;> cases runCheck m e <;> cases runAttemptCheck m e <;>
    cases workflowCheck m e <;> cases headShaCheck m e <;> cases prCheck m e <;>
      cases requireEventsCheck m e <;> rfl

theorem repoCheck_none_iff (m : List (String × JSON)) (e : ConsumerExpectations) :
    repoCheck m e = Option.none ↔
      strFieldIs (lookupField m "repository") e.repository = true := by
  unfold repoCheck
  split <;> simp_all

theorem runCheck_none_iff (m : List (String × JSON)) (e : ConsumerExpectations) :
    runCheck m e = Option.none ↔
      strFieldIs (lookupField m "workflow_run_id") e.runId = true := by
  unfold runCheck
  split <;> simp_all

theorem runAttemptCheck_none_iff (m : List (String × JSON)) (e : ConsumerExpectations) :
    runAttemptCheck m e = Option.none ↔
      (∀ s, e.runAttempt = some s → s ≠ "" →
        strFieldIs (lookupField m "workflow_run_attempt") s = true) := by
  cases h : e.runAttempt with
  | none => simp [runAttemptCheck, h]
  | some s =>
    by_cases hs : s = "" <;>
      by_cases hf : strFieldIs (lookupField m "workflow_run_attempt") s = true <;>
        simp_all [runAttemptCheck, h]

theorem workflowCheck_none_iff (m : List (String × JSON)) (e : ConsumerExpectations) :
    workflowCheck m e = Option.none ↔
      (∀ s, e.sourceWorkflow = some s → s ≠ "" →
        strFieldIs (lookupField m "workflow_name") s = true) := by
  cases h : e.sourceWorkflow with
  | none => simp [workflowCheck, h]
  | some s =>
    by_cases hs : s = "" <;>
      by_cases hf : strFieldIs (lookupField m "workflow_name") s = true <;>
        simp_all [workflowCheck, h]

theorem headShaCheck_none_iff (m : List (String × JSON)) (e : ConsumerExpectations) :
    headShaCheck m e = Option.none ↔
      (∀ s, e.expectedHeadSha = some s → s ≠ "" →
        strFieldIs (lookupField m "head_sha") s = true) := by
  cases h : e.expectedHeadSha with
  | none => simp [headShaCheck, h]
  | some s =>
    by_cases hs : s = "" <;>
      by_cases hf : strFieldIs (lookupField m "head_sha") s = true <;>
        simp_all [headShaCheck, h]

theorem prCheck_none_iff (m : List (String × JSON)) (e : ConsumerExpectations) :
    prCheck m e = Option.none ↔
      (∀ s, e.expectedPrNumber = some s → s ≠ "" → jsStr m "pr_number" = s) := by
  cases h : e.expectedPrNumber with
  | none => simp [prCheck, h]
  | some s =>
    by_cases hs : s = "" <;>
      by_cases hf : jsStr m "pr_number" = s <;>
        simp_all [prCheck, h]

theorem requireEventsCheck_none_iff (m : List (String × JSON)) (e : ConsumerExpectations) :
    requireEventsCheck m e = Option.none ↔
      (∀ l, e.requireEvents = some l → l ≠ [] → eventNameMember m l = true) := by
  cases h : e.requireEvents with
  | none => simp [requireEventsCheck, h]
  | some l =>
    by_cases hl : l = ([] : List String) <;>
      by_cases hf : eventNameMember m l = true <;>
        simp_all [requireEventsCheck, h]

theorem validate_none_iff (m : List (String × JSON)) (e : ConsumerExpectations) :
    validateConsumerExpectations m e = Option.none ↔
      (repoCheck m e = Option.none ∧ runCheck m e = Option.none ∧
       runAttemptCheck m e = Option.none ∧ workflowCheck m e = Option.none ∧
       headShaCheck m e = Option.none ∧ prCheck m e = Option.none ∧
       requireEventsCheck m e = Option.none) := by
  simp only [validateConsumerExpectations]
  cases repoCheck m e <;> cases runCheck m e <;> cases runAttemptCheck m e <;>
    cases workflowCheck m e <;> cases headShaCheck m e <;> cases prCheck m e <;>
      cases requireEventsCheck m e <;> simp

/-- The §8 example meta record. -/
def exMeta : List (String × JSON) :=
  [("repository", JSON.str "owner/repo"), ("workflow_run_id", JSON.str "123"),
   ("workflow_run_attempt", JSON.str "2"),
   ("workflow_name", JSON.str "Maintainer merge"),
   ("head_sha", JSON.str "deadbeef"), ("event_name", JSON.str "issue_comment"),
   ("pr_number", JSON.num 42)]

/-- The §8 example expectations, all supplied and matching. -/
def exExp : ConsumerExpectations :=
  ⟨"owner/repo", "123", some "2", some "Maintainer merge", some "deadbeef",
   some "42", some ["issue_comment", "pull_request_review"]⟩

/-- C2.  validateConsumerExpectations raises no error exactly when every
supplied expectation matches the corresponding meta field (repository and
runId always; the optional checks only when supplied and non-empty), and
its outcome is always the error of the earliest failing check in the
fixed order repository, run, run-attempt, workflow, head-SHA, PR number,
event allow-list; on the §8 example it accepts, and changing only runId
to 124 yields the Run-mismatch error. -/
theorem claim_C2 :
    (∀ (m : List (String × JSON)) (e : ConsumerExpectations),
      (validateConsumerExpectations m e = Option.none ↔
        (strFieldIs (lookupField m "repository") e.repository = true ∧
         strFieldIs (lookupField m "workflow_run_id") e.runId = true ∧
         (∀ s, e.runAttempt = some s → s ≠ "" →
           strFieldIs (lookupField m "workflow_run_attempt") s = true) ∧
         (∀ s, e.sourceWorkflow = some s → s ≠ "" →
           strFieldIs (lookupField m "workflow_name") s = true) ∧
         (∀ s, e.expectedHeadSha = some s → s ≠ "" →
           strFieldIs (lookupField m "head_sha") s = true) ∧
         (∀ s, e.expectedPrNumber = some s → s ≠ "" → jsStr m "pr_number" = s) ∧
         (∀ l, e.requireEvents = some l → l ≠ [] → eventNameMember m l = true))) ∧
      validateConsumerExpectations m e = orderedChecks.findSome? (fun c => c m e)) ∧
    validateConsumerExpectations exMeta exExp = Option.none ∧
    validateConsumerExpectations exMeta { exExp with runId := "124" } =
      some "Run mismatch: expected 124, got 123" := by
  refine ⟨fun m e => ⟨?_, validate_eq_findSome m e⟩, rfl, rfl⟩
  rw [validate_none_iff, repoCheck_none_iff, runCheck_none_iff,
    runAttemptCheck_none_iff, workflowCheck_none_iff, headShaCheck_none_iff,
    prCheck_none_iff, requireEventsCheck_none_iff]

/-- Witness for C2: the fail-fast characterization applied at the §8
example. -/
theorem claim_C2_witness :
    validateConsumerExpectations exMeta exExp =
      orderedChecks.findSome? (fun c => c exMeta exExp) :=
  (claim_C2.1 exMeta exExp).2

/-! ### C1: absent producer PR number -/

/-- A meta record with all §8 fields matching but no pr_number. -/
def c1Meta : List (String × JSON) :=
  [("repository", JSON.str "owner/repo"), ("workflow_run_id", JSON.str "123"),
   ("workflow_run_attempt", JSON.str "2"),
   ("workflow_name", JSON.str "Maintainer merge"),
   ("head_sha", JSON.str "deadbeef"), ("event_name", JSON.str "issue_comment")]

/-- C1 counterexample.  A supplied non-empty PR-number expectation CAN
succeed against a producer that set no PR number: with pr_number absent
the stringified value is the literal text undefined, so the supplied
expectation undefined matches it and validateConsumerExpectations
raises no error at all. -/
theorem counterexample_C1 :
    lookupField c1Meta "pr_number" = Option.none ∧
    validateConsumerExpectations c1Meta
      ⟨"owner/repo", "123", Option.none, Option.none, Option.none,
       some "undefined", Option.none⟩ = Option.none :=
  ⟨rfl, rfl⟩

/-- C1 (amended).  For every meta record with pr_number absent and every
supplied non-empty expectedPrNumber, once the five earlier checks pass,
validateConsumerExpectations raises the PR-mismatch error (with the
producer side stringified to the literal text undefined) unless the
supplied expectation is itself the literal string undefined, in which
case the PR check passes and the outcome is that of the event allow-list
check. -/
theorem claim_C1 (m : List (String × JSON)) (e : ConsumerExpectations) (s : String)
    (hpr : lookupField m "pr_number" = Option.none)
    (hs : e.expectedPrNumber = some s) (hne : s ≠ "")
    (h1 : repoCheck m e = Option.none) (h2 : runCheck m e = Option.none)
    (h3 : runAttemptCheck m e = Option.none) (h4 : workflowCheck m e = Option.none)
    (h5 : headShaCheck m e = Option.none) :
    validateConsumerExpectations m e =
      (if s = "undefined" then requireEventsCheck m e
       else some ("PR mismatch: expected " ++ s ++ ", got " ++ "undefined")) := by
  have hstr : jsStr m "pr_number" = "undefined" := by simp [jsStr, hpr]
  simp only [validateConsumerExpectations, h1, h2, h3, h4, h5]
  by_cases hu : s = "undefined"
  · subst hu
    simp [prCheck, hs, hne, hstr]
  · have h7 : ¬ ("undefined" = s) := fun h => hu h.symm
    simp [prCheck, hs, hne, hstr, hu, h7]

/-- Witness for C1 at a concrete expectation 7: the PR-mismatch error is
raised with the producer side reported as undefined. -/
theorem claim_C1_witness :
    validateConsumerExpectations c1Meta
      ⟨"owner/repo", "123", Option.none, Option.none, Option.none,
       some "7", Option.none⟩ =
      some "PR mismatch: expected 7, got undefined" := by
  have h := claim_C1 c1Meta
    ⟨"owner/repo", "123", Option.none, Option.none, Option.none,
     some "7", Option.none⟩ "7" rfl rfl (by decide) rfl rfl rfl rfl rfl
  simpa using h

/-! ### Path-resolver lemmas -/

theorem findSome?_ext {α β : Type} (l : List α) (f g : α → Option β)
    (h : ∀ a ∈ l, f a = g a) : l.findSome? f = l.findSome? g := by
  induction l with
  | nil => rfl
  | cons a l ih =>
    rw [List.findSome?_cons, List.findSome?_cons, h a (List.mem_cons_self _ _)]
    cases g a with
    | none => exact ih (fun x hx => h x (List.mem_cons_of_mem _ hx))
    | some b => rfl

/-- A chunk produced by splitting on a separator never contains the
separator. -/
theorem splitCharAux_not_mem (c : Char) (l : List Char) :
    ∀ (acc : List Char), c ∉ acc → ∀ piece ∈ splitCharAux c acc l, c ∉ piece := by
  induction l with
  | nil =>
    intro acc hacc piece hp
    simp only [splitCharAux, List.mem_singleton] at hp
    subst hp
    simpa using hacc
  | cons x xs ih =>
    intro acc hacc piece hp
    simp only [splitCharAux] at hp
    by_cases hx : x = c
    · rw [if_pos hx] at hp
      rcases List.mem_cons.mp hp with h | h
      · subst h; simpa using hacc
      · exact ih [] (by simp) piece h
    · rw [if_neg hx] at hp
      refine ih (x :: acc) ?_ piece hp
      intro hmem
      rcases List.mem_cons.mp hmem with h | h
      · exact hx h.symm
      · exact hacc h

theorem trimChars_subset (l : List Char) : ∀ x ∈ trimChars l, x ∈ l := by
  intro x hx
  unfold trimChars at hx
  rw [List.mem_reverse] at hx
  have hx2 := (List.dropWhile_sublist _).subset hx
  rw [List.mem_reverse] at hx2
  exact (List.dropWhile_sublist _).subset hx2

theorem pathCandidates_no_bar (p : String) :
    ∀ q ∈ pathCandidates p, jsIncludes q '|' = false := by
  intro q hq
  unfold pathCandidates at hq
  obtain ⟨hq1, -⟩ := List.mem_filter.mp hq
  obtain ⟨r, hr, hru⟩ := List.mem_map.mp hq1
  obtain ⟨piece, hpiece, hpu⟩ := List.mem_map.mp (by simpa [jsSplit] using hr)
  have hnot : '|' ∉ piece := splitCharAux_not_mem '|' p.data [] (by simp) piece hpiece
  have hqd : q.data = trimChars piece := by
    rw [← hru, ← hpu]
    rfl
  have hnq : '|' ∉ q.data := by
    rw [hqd]
    intro hmem
    exact hnot (trimChars_subset piece _ hmem)
  simp [jsIncludes, hnq]

theorem getByPath_no_bar (v : JSON) (p : String)
    (h : jsIncludes p '|' = false) : getByPath v p = simpleGet v p := by
  simp [getByPath, h]

/-- The recursive unfolding of the source on the fallback form: each
candidate is resolved by `getByPath` itself. -/
theorem getByPath_fallback_eq (v : JSON) (p : String)
    (h : jsIncludes p '|' = true) :
    getByPath v p = (pathCandidates p).findSome? (fun c => getByPath v c) := by
  have h1 : getByPath v p = (pathCandidates p).findSome? (fun c => simpleGet v c) := by
    simp [getByPath, h]
  rw [h1]
  exact findSome?_ext _ _ _
    (fun c hc => (getByPath_no_bar v c (pathCandidates_no_bar p c hc)).symm)

theorem foldl_specStep_none (segs : List String) :
    segs.foldl specStep Option.none = Option.none := by
  induction segs with
  | nil => rfl
  | cons seg rest ih => simpa [specStep] using ih

theorem walkSegs_eq_foldl (segs : List String) :
    ∀ v : JSON, walkSegs v segs = segs.foldl specStep (some v) := by
  induction segs with
  | nil => intro v; simp [walkSegs]
  | cons seg rest ih =>
    intro v
    cases v with
    | null => simp [walkSegs, specStep, foldl_specStep_none]
    | bool b => simp [walkSegs, specStep, foldl_specStep_none]
    | num n => simp [walkSegs, specStep, foldl_specStep_none]
    | str s => simp [walkSegs, specStep, foldl_specStep_none]
    | arr xs =>
      cases hp : parseIndex seg with
      | none => simp [walkSegs, specStep, hp, foldl_specStep_none]
      | some i =>
        cases hg : xs[i]? with
        | none => simp [walkSegs, specStep, hp, hg, foldl_specStep_none]
        | some nxt => simp [walkSegs, specStep, hp, hg, ih]
    | obj fields =>
      cases hf : lookupField fields seg with
      | none => simp [walkSegs, specStep, hf, foldl_specStep_none]
      | some nxt => simp [walkSegs, specStep, hf, ih]

theorem simpleGet_eq_spec (v : JSON) (p : String) :
    simpleGet v p = specSimpleResolve v p := by
  simp only [simpleGet, specSimpleResolve, walkSegs_eq_foldl]
  by_cases h : pathSegments p = [] <;> simp [h, List.isEmpty_iff]

theorem simpleGet_scalar (v : JSON) (p : String) (j : JSON)
    (h : simpleGet v p = some j) : isScalarJ j = true := by
  simp only [simpleGet] at h
  split at h
  · exact absurd h (by simp)
  · split at h
    · split at h
      · cases h; assumption
      · exact absurd h (by simp)
    · exact absurd h (by simp)

theorem getByPath_scalar (v : JSON) (p : String) (j : JSON)
    (h : getByPath v p = some j) : isScalarJ j = true := by
  unfold getByPath at h
  split at h
  · obtain ⟨c, -, hc⟩ := List.exists_of_findSome?_eq_some h
    exact simpleGet_scalar v c j hc
  · exact simpleGet_scalar v p j h

/-! ### C7: simple-form resolution -/

/-- C7.  On every path without a bar, getByPath performs exactly the
simple-form walk of §4.2 over the trimmed non-empty dot segments — the
fold of the single descent step (null fails; arrays need an in-range
non-negative integer index; objects need an existing own key; a scalar
with segments remaining fails) followed by the terminal rule — and, on
any path at all, a defined result is always a scalar: an object or array
reached at the end of a path yields undefined, never the container. -/
theorem claim_C7 (v : JSON) (p : String) :
    (jsIncludes p '|' = false → getByPath v p = specSimpleResolve v p) ∧
    (∀ j, getByPath v p = some j → isScalarJ j = true) :=
  ⟨fun h => (getByPath_no_bar v p h).trans (simpleGet_eq_spec v p),
   fun j h => getByPath_scalar v p j h⟩

def c7Value : JSON := JSON.obj [("root", JSON.obj [("nested", JSON.obj [("x", JSON.num 1)])])]

/-- Witness for C7: the terminal value of root.nested is an object, so
resolution yields undefined. -/
theorem claim_C7_witness :
    getByPath c7Value "root.nested" = specSimpleResolve c7Value "root.nested" ∧
    getByPath c7Value "root.nested" = Option.none :=
  ⟨(claim_C7 c7Value "root.nested").1 rfl, rfl⟩

/-! ### C8: fallback resolution -/

def c8Value : JSON :=
  JSON.obj [("event", JSON.obj [("comment", JSON.obj [("user",
    JSON.obj [("login", JSON.str "alice")])])])]

/-- C8.  On every path containing a bar, getByPath splits the path into
the ordered, trimmed, non-empty candidates and returns the result of the
first candidate that resolves (each candidate resolved by getByPath
itself, equivalently by the simple form, since a candidate contains no
bar); if none resolves the result is undefined.  In particular the
review/comment fallback resolves to alice. -/
theorem claim_C8 :
    (∀ (v : JSON) (p : String), jsIncludes p '|' = true →
      getByPath v p = (pathCandidates p).findSome? (fun c => getByPath v c) ∧
      getByPath v p = (pathCandidates p).findSome? (fun c => specSimpleResolve v c)) ∧
    getByPath c8Value "event.review.user.login|event.comment.user.login" =
      some (JSON.str "alice") := by
  refine ⟨fun v p h => ⟨getByPath_fallback_eq v p h, ?_⟩, rfl⟩
  simp only [getByPath, h, if_true]
  exact findSome?_ext _ _ _ (fun c _ => simpleGet_eq_spec v c)

/-- Witness for C8: the fallback characterization applied at the alice
example. -/
theorem claim_C8_witness :
    getByPath c8Value "event.review.user.login|event.comment.user.login" =
      (pathCandidates "event.review.user.login|event.comment.user.login").findSome?
        (fun c => getByPath c8Value c) :=
  (claim_C8.1 c8Value "event.review.user.login|event.comment.user.login" rfl).1

/-! ### C3: pickByPaths and the fallback layer -/

/-- C3 counterexample.  pickByPaths passes each path to getByPath, which
does split on a bar: for the path `a|b` against an object with key a,
the fallback resolves to 1 and the pair is written under the literal key
`a|b`, while the simple-form algorithm (the claim) does not resolve the
path at all and would have omitted it. -/
theorem counterexample_C3 :
    pickByPaths (JSON.obj [("a", JSON.num 1)]) ["a|b"] =
      [("a|b", JSON.num 1)] ∧
    specSimpleResolve (JSON.obj [("a", JSON.num 1)]) "a|b" = Option.none :=
  ⟨rfl, rfl⟩

theorem pickByPaths_aux (v : JSON) (paths : List String)
    (h : ∀ p ∈ paths, jsIncludes p '|' = false) :
    ∀ acc : List (String × JSON),
      paths.foldl
        (fun out pathSpec =>
          match getByPath v pathSpec with
          | some w => setByPath out pathSpec w
          | Option.none => out) acc =
      paths.foldl
        (fun out pathSpec =>
          match specSimpleResolve v pathSpec with
          | some w => setByPath out pathSpec w
          | Option.none => out) acc := by
  induction paths with
  | nil => intro acc; rfl
  | cons p rest ih =>
    intro acc
    have hp : getByPath v p = specSimpleResolve v p :=
      (getByPath_no_bar v p (h p (List.mem_cons_self _ _))).trans
        (simpleGet_eq_spec v p)
    simp only [List.foldl_cons, hp]
    exact ih (fun q hq => h q (List.mem_cons_of_mem _ hq)) _

/-- C3 (amended).  pickByPaths resolves each path with the full getByPath
algorithm, so a bar in a supplied path IS treated as a fallback separator
at this layer; only for paths containing no bar does the claimed
behaviour hold: each path resolving to a defined scalar via the
simple-form algorithm is written at its dotted location (creating
intermediate nested objects) and paths that do not resolve are silently
omitted with no error. -/
theorem claim_C3 (v : JSON) (paths : List String)
    (h : ∀ p ∈ paths, jsIncludes p '|' = false) :
    pickByPaths v paths = pickBySimplePaths v paths :=
  pickByPaths_aux v paths h []

/-- Witness for C3 on a bar-free path list. -/
theorem claim_C3_witness :
    pickByPaths c8Value ["event.comment.user.login", "event.missing"] =
      pickBySimplePaths c8Value ["event.comment.user.login", "event.missing"] :=
  claim_C3 c8Value ["event.comment.user.login", "event.missing"] (by decide)

end Bridge
